import Mathlib

/-! ModelingLab: a verification development for `Modeling_Lab/Main.cpp`

`Main.cpp` is the whole application: the file-scope input state (`keys`,
`lastX`, `lastY`, `firstMouse`, `deltaTime`), the three GLFW callbacks,
`do_Movement`, and `main`, which bakes the cone mesh and draws six instances
of it each frame.

The embedding keeps the statement order of the source.  Values of type
`GLfloat` and `double` are the rationals they denote; every conversion to
`GLfloat` and every arithmetic result goes through an explicit IEEE-754
round-to-nearest-even step (`toFloat`, `toDouble`).  Array accesses with a
run-time index return `Option`, `none` standing for an access outside the
array.  `Camera.h`, `Mesh.h`, GLM and GLFW are not part of `Main.cpp`; what
the program needs from them is taken as a parameter or stated next to the
definition that uses it.  The GLM functions `glm::translate` and
`glm::rotate` and the default `glm::mat4` are parameters throughout.
-/

namespace ModelingLab

/-! ## Binary floating point -/

/-- Binary logarithm by repeated halving; `fuel` bounds the number of halvings. -/
def log2Aux : ℕ → ℕ → ℕ
  | 0, _ => 0
  | fuel + 1, n => if n < 2 then 0 else log2Aux fuel (n / 2) + 1

/-- Position of the highest set bit of `n` (0 for `n = 0`). -/
def natLog2 (n : ℕ) : ℕ := log2Aux n n

/-- The rational `2 ^ k` for an integer exponent `k`. -/
def pow2 (k : ℤ) : ℚ :=
  if 0 ≤ k then ((2 ^ k.toNat : ℕ) : ℚ) else 1 / ((2 ^ (-k).toNat : ℕ) : ℚ)

/-- The binade of a nonzero rational: the greatest `e` with `2 ^ e ≤ |q|`. -/
def floorLog2 (q : ℚ) : ℤ :=
  let k : ℤ := (natLog2 q.num.natAbs : ℤ) - (natLog2 q.den : ℤ)
  if pow2 k ≤ |q| then k else k - 1

/-- Nearest integer, ties to the even one. -/
def roundHalfEven (r : ℚ) : ℤ :=
  let f := ⌊r⌋
  let d := r - f
  if d < 1 / 2 then f
  else if 1 / 2 < d then f + 1
  else if f % 2 = 0 then f else f + 1

/-- Round-to-nearest-even into the binary format with `prec` significand bits
and least normal exponent `emin` (subnormals included).  The exponent range is
not bounded above, so overflow to infinity is not represented: the result is
the IEEE-754 one exactly when that one is finite, which is when the result
stays below the format's overflow threshold (`NarrowsFinite`,
`RoundsFinite`).  Statements about the program use rounding only under such
a bound or at explicit small values. -/
def roundBinary (prec : ℕ) (emin : ℤ) (q : ℚ) : ℚ :=
  if q = 0 then 0 else
  let e := max (floorLog2 q) emin
  let ulp := pow2 (e - (prec - 1))
  roundHalfEven (q / ulp) * ulp

/-- Conversion to `GLfloat` (IEEE-754 binary32). -/
def toFloat (q : ℚ) : ℚ := roundBinary 24 (-126) q

/-- Rounding of a `double` result (IEEE-754 binary64). -/
def toDouble (q : ℚ) : ℚ := roundBinary 53 (-1022) q

/-- The value is a finite `GLfloat`: conversion leaves it unchanged and it is
below the overflow threshold. -/
def IsFloat (q : ℚ) : Prop := toFloat q = q ∧ |q| < 2 ^ 128

instance (q : ℚ) : Decidable (IsFloat q) := by
  unfold IsFloat; infer_instance

/-- The value is a finite `double`. -/
def IsDouble (q : ℚ) : Prop := toDouble q = q ∧ |q| < 2 ^ 1024

instance (q : ℚ) : Decidable (IsDouble q) := by
  unfold IsDouble; infer_instance

/-- Narrowing `q` to `GLfloat` does not overflow: the rounded value is below
`2 ^ 128`.  Under this condition `toFloat q` is the value the conversion
yields. -/
def NarrowsFinite (q : ℚ) : Prop := |toFloat q| < 2 ^ 128

/-- Rounding `q` to `double` does not overflow. -/
def RoundsFinite (q : ℚ) : Prop := |toDouble q| < 2 ^ 1024

/-- Multiplication of two `GLfloat` values. -/
def fmul (a b : ℚ) : ℚ := toFloat (a * b)

/-! ## GLFW constants (`GLFW/glfw3.h`) -/

def GLFW_RELEASE : ℤ := 0
def GLFW_PRESS : ℤ := 1
def GLFW_REPEAT : ℤ := 2
def GLFW_KEY_UNKNOWN : ℤ := -1
def GLFW_KEY_A : ℤ := 65
def GLFW_KEY_D : ℤ := 68
def GLFW_KEY_S : ℤ := 83
def GLFW_KEY_W : ℤ := 87
def GLFW_KEY_ESCAPE : ℤ := 256

/-! ## The camera collaborator (`Camera.h`) -/

/-- Modelled from the spec: the enumeration `Camera_Movement` declared in
`Camera.h`, which is not part of `Main.cpp`: the direction argument of
`Camera::ProcessKeyboard`, one of FORWARD, BACKWARD, LEFT, RIGHT. -/
inductive Camera_Movement where
  | FORWARD
  | BACKWARD
  | LEFT
  | RIGHT
  deriving DecidableEq, Repr

/-- The three `Camera` methods `Main.cpp` calls.  `Camera.h` is not part of
`Main.cpp`: each method is a parameter, an arbitrary update of the camera
object. -/
structure CameraOps (Cam : Type) where
  ProcessKeyboard : Camera_Movement → ℚ → Cam → Cam
  ProcessMouseMovement : ℚ → ℚ → Cam → Cam
  ProcessMouseScroll : ℚ → Cam → Cam

/-- One recorded call on the camera. -/
inductive CameraCall where
  | keyboard (direction : Camera_Movement) (deltaTime : ℚ)
  | mouseMovement (xoffset yoffset : ℚ)
  | mouseScroll (yoffset : ℚ)
  deriving DecidableEq, Repr

/-- The camera that only records, in order, the calls made on it. -/
def recordingCamera : CameraOps (List CameraCall) where
  ProcessKeyboard := fun d dt log => log ++ [CameraCall.keyboard d dt]
  ProcessMouseMovement := fun x y log => log ++ [CameraCall.mouseMovement x y]
  ProcessMouseScroll := fun y log => log ++ [CameraCall.mouseScroll y]

/-! ## File-scope state -/

/-- The array `bool keys[1024]`. -/
structure Keys where
  cells : List Bool
  size_eq : cells.length = 1024

/-- Zero-initialised `keys` (static storage duration). -/
def Keys.zero : Keys := ⟨List.replicate 1024 false, List.length_replicate 1024 false⟩

/-- The read `keys[i]` with an `int` index; `none` outside the array. -/
def Keys.load (k : Keys) (i : ℤ) : Option Bool :=
  if 0 ≤ i ∧ i < 1024 then k.cells[i.toNat]? else none

/-- The store `keys[i] = v` with an `int` index; `none` outside the array. -/
def Keys.store (k : Keys) (i : ℤ) (v : Bool) : Option Keys :=
  if 0 ≤ i ∧ i < 1024 then
    some ⟨k.cells.set i.toNat v, by rw [List.length_set]; exact k.size_eq⟩
  else none

def WIDTH : ℕ := 1200
def HEIGHT : ℕ := 900

/-- The globals of `Main.cpp` together with the close flag of the one window. -/
structure AppState (Cam : Type) where
  camera : Cam
  lastX : ℚ
  lastY : ℚ
  keys : Keys
  firstMouse : Bool
  deltaTime : ℚ
  lastFrame : ℚ
  windowShouldClose : Bool

/-- The state at program start, for a camera `cam0` built by the `Camera`
constructor. -/
def AppState.initial {Cam : Type} (cam0 : Cam) : AppState Cam where
  camera := cam0
  lastX := toFloat (toDouble ((WIDTH : ℚ) / 2))
  lastY := toFloat (toDouble ((HEIGHT : ℚ) / 2))
  keys := Keys.zero
  firstMouse := true
  deltaTime := 0
  lastFrame := 0
  windowShouldClose := false

/-! ## Callbacks -/

/-- The callback `void mouse_callback(GLFWwindow* window, double xpos, double ypos)`.
`lastX`/`lastY` are `GLfloat`: every store into them narrows the `double`
argument; each difference is taken in `double` and narrowed into the
`GLfloat` offset. -/
def mouse_callback {Cam : Type} (ops : CameraOps Cam) (s : AppState Cam)
    (xpos ypos : ℚ) : AppState Cam :=
  let s1 : AppState Cam :=
    if s.firstMouse then
      { s with lastX := toFloat xpos, lastY := toFloat ypos, firstMouse := false }
    else s
  let xoffset := toFloat (toDouble (xpos - s1.lastX))
  let yoffset := toFloat (toDouble (s1.lastY - ypos))
  let s2 : AppState Cam := { s1 with lastX := toFloat xpos, lastY := toFloat ypos }
  { s2 with camera := ops.ProcessMouseMovement xoffset yoffset s2.camera }

/-- The callback
`void scroll_callback(GLFWwindow* window, double xoffset, double yoffset)`. -/
def scroll_callback {Cam : Type} (ops : CameraOps Cam) (s : AppState Cam)
    (_xoffset yoffset : ℚ) : AppState Cam :=
  { s with camera := ops.ProcessMouseScroll yoffset s.camera }

/-- The callback
`void key_callback(GLFWwindow* window, int key, int scancode, int action, int mode)`.
`glfwSetWindowShouldClose(window, GL_TRUE)` sets the window's close flag. -/
def key_callback {Cam : Type} (s : AppState Cam) (key _scancode action _mode : ℤ) :
    Option (AppState Cam) :=
  let s1 : AppState Cam :=
    if key = GLFW_KEY_ESCAPE ∧ action = GLFW_PRESS then
      { s with windowShouldClose := true }
    else s
  if 0 ≤ key ∧ key < 1024 then
    if action = GLFW_PRESS then
      (s1.keys.store key true).map fun k => { s1 with keys := k }
    else if action = GLFW_RELEASE then
      (s1.keys.store key false).map fun k => { s1 with keys := k }
    else some s1
  else some s1

/-- The function `void do_Movement()`: four tests in sequence, each reading
`keys` and, when the key is down, calling `camera.ProcessKeyboard` with the
global `deltaTime`. -/
def do_Movement {Cam : Type} (ops : CameraOps Cam) (s : AppState Cam) :
    Option (AppState Cam) := do
  let w ← s.keys.load GLFW_KEY_W
  let s1 : AppState Cam :=
    if w then { s with camera := ops.ProcessKeyboard Camera_Movement.FORWARD s.deltaTime s.camera }
    else s
  let b ← s1.keys.load GLFW_KEY_S
  let s2 : AppState Cam :=
    if b then { s1 with camera := ops.ProcessKeyboard Camera_Movement.BACKWARD s1.deltaTime s1.camera }
    else s1
  let a ← s2.keys.load GLFW_KEY_A
  let s3 : AppState Cam :=
    if a then { s2 with camera := ops.ProcessKeyboard Camera_Movement.LEFT s2.deltaTime s2.camera }
    else s2
  let d ← s3.keys.load GLFW_KEY_D
  let s4 : AppState Cam :=
    if d then { s3 with camera := ops.ProcessKeyboard Camera_Movement.RIGHT s3.deltaTime s3.camera }
    else s3
  pure s4

/-- An input event delivered by `glfwPollEvents`. -/
inductive Event where
  | key (key scancode action mode : ℤ)
  | cursor (xpos ypos : ℚ)
  | scroll (xoffset yoffset : ℚ)

/-- The callback registered for each kind of event. -/
def dispatch {Cam : Type} (ops : CameraOps Cam) (s : AppState Cam) :
    Event → Option (AppState Cam)
  | Event.key k sc a m => key_callback s k sc a m
  | Event.cursor x y => some (mouse_callback ops s x y)
  | Event.scroll x y => some (scroll_callback ops s x y)

/-- The callbacks run one after another on a list of events. -/
def pollEvents {Cam : Type} (ops : CameraOps Cam) :
    AppState Cam → List Event → Option (AppState Cam)
  | s, [] => some s
  | s, e :: es => (dispatch ops s e).bind fun s1 => pollEvents ops s1 es

/-- Cursor events delivered one after another to `mouse_callback`. -/
def feedCursor {Cam : Type} (ops : CameraOps Cam) :
    AppState Cam → List (ℚ × ℚ) → AppState Cam
  | s, [] => s
  | s, p :: ps => feedCursor ops (mouse_callback ops s p.1 p.2) ps

/-- The arguments of one `key_callback` invocation. -/
structure KeyEvent where
  key : ℤ
  scancode : ℤ
  action : ℤ
  mode : ℤ
  deriving DecidableEq

/-- Key events delivered one after another to `key_callback`. -/
def feedKeys {Cam : Type} : AppState Cam → List KeyEvent → Option (AppState Cam)
  | s, [] => some s
  | s, e :: es =>
    (key_callback s e.key e.scancode e.action e.mode).bind fun s1 => feedKeys s1 es

/-! ## Geometry baked into `main` -/

/-- The type `glm::vec3`. -/
structure Vec3 where
  x : ℚ
  y : ℚ
  z : ℚ
  deriving DecidableEq, Repr

/-- Modelled from the spec: the record `Vertex` declared in `Mesh.h`, which is
not part of `Main.cpp`: a position and a normal, the two members `main`
assigns. -/
structure Vertex where
  Position : Vec3
  Normal : Vec3
  deriving DecidableEq, Repr

/-- A literal with the `f` suffix, such as `2.4f`. -/
def floatLit (q : ℚ) : ℚ := toFloat q

/-- A literal without suffix, such as `.577`: a `double`. -/
def doubleLit (q : ℚ) : ℚ := toDouble q

/-- The constructor `glm::vec3(a, b, c)`: each argument is converted to `float`. -/
def vec3 (a b c : ℚ) : Vec3 := ⟨toFloat a, toFloat b, toFloat c⟩

/-- The constructor `glm::vec3(a)`: the same scalar in the three components. -/
def vec3Splat (a : ℚ) : Vec3 := ⟨toFloat a, toFloat a, toFloat a⟩

/-- Component-wise `glm::vec3 * glm::vec3`. -/
def Vec3.mul (u v : Vec3) : Vec3 := ⟨fmul u.x v.x, fmul u.y v.y, fmul u.z v.z⟩

def normal0 : Vec3 := vec3 (doubleLit (577 / 1000)) (doubleLit (577 / 1000)) (doubleLit (577 / 1000))
def normal1 : Vec3 := vec3 (doubleLit 0) (doubleLit 0) (-(doubleLit 1))
def normal2 : Vec3 := vec3 (-(doubleLit 1)) (doubleLit 0) (doubleLit 0)
def normal3 : Vec3 := vec3 (doubleLit 0) (-(doubleLit 1)) (doubleLit 0)

def vertex0 : Vec3 := vec3 (doubleLit 0) (doubleLit 0) (doubleLit 0)
def vertex1 : Vec3 := vec3 (doubleLit 1) (doubleLit 0) (doubleLit 0)
def vertex2 : Vec3 := vec3 (doubleLit 0) (doubleLit 1) (doubleLit 0)
def vertex3 : Vec3 := vec3 (doubleLit 0) (doubleLit 0) (doubleLit 1)

/-- The twelve `Vertex` locals of `main` and the vector they are pushed into. -/
structure MainLocals where
  A : Vertex
  B : Vertex
  C : Vertex
  AA : Vertex
  BB : Vertex
  CC : Vertex
  AAA : Vertex
  BBB : Vertex
  CCC : Vertex
  AAAA : Vertex
  BBBB : Vertex
  CCCC : Vertex
  vertices : List Vertex

/-- Lines 186-247 of `main`, statement by statement.  `l0` holds what the
declaration `Vertex A, B, ..., CCCC;` leaves in the twelve locals;
`push_back` appends a copy of the local as it is at that point. -/
def buildVertices (l0 : MainLocals) : MainLocals :=
  let l : MainLocals := { l0 with vertices := [] }
  let l : MainLocals := { l with A := { l.A with Position := vertex1 } }
  let l : MainLocals := { l with A := { l.A with Normal := normal0 } }
  let l : MainLocals := { l with vertices := l.vertices ++ [l.A] }
  let l : MainLocals := { l with B := { l.B with Position := vertex2 } }
  let l : MainLocals := { l with B := { l.B with Normal := normal0 } }
  let l : MainLocals := { l with vertices := l.vertices ++ [l.B] }
  let l : MainLocals := { l with C := { l.C with Position := vertex3 } }
  let l : MainLocals := { l with C := { l.C with Normal := normal0 } }
  let l : MainLocals := { l with vertices := l.vertices ++ [l.C] }
  let l : MainLocals := { l with AA := { l.AA with Position := vertex0 } }
  let l : MainLocals := { l with AA := { l.AA with Normal := normal1 } }
  let l : MainLocals := { l with vertices := l.vertices ++ [l.AA] }
  let l : MainLocals := { l with BB := { l.BB with Position := vertex2 } }
  let l : MainLocals := { l with BB := { l.BB with Normal := normal1 } }
  let l : MainLocals := { l with vertices := l.vertices ++ [l.BB] }
  let l : MainLocals := { l with CC := { l.CC with Position := vertex1 } }
  let l : MainLocals := { l with CC := { l.CC with Normal := normal1 } }
  let l : MainLocals := { l with vertices := l.vertices ++ [l.CC] }
  let l : MainLocals := { l with AAA := { l.AAA with Position := vertex0 } }
  let l : MainLocals := { l with AAA := { l.AAA with Normal := normal2 } }
  let l : MainLocals := { l with vertices := l.vertices ++ [l.AAA] }
  let l : MainLocals := { l with BBB := { l.BBB with Position := vertex3 } }
  let l : MainLocals := { l with B := { l.B with Normal := normal2 } }
  let l : MainLocals := { l with vertices := l.vertices ++ [l.BBB] }
  let l : MainLocals := { l with CCC := { l.CCC with Position := vertex2 } }
  let l : MainLocals := { l with C := { l.C with Normal := normal2 } }
  let l : MainLocals := { l with vertices := l.vertices ++ [l.CCC] }
  let l : MainLocals := { l with AAAA := { l.AAAA with Position := vertex1 } }
  let l : MainLocals := { l with AAAA := { l.AAAA with Normal := normal3 } }
  let l : MainLocals := { l with vertices := l.vertices ++ [l.AAAA] }
  let l : MainLocals := { l with BBBB := { l.BBBB with Position := vertex3 } }
  let l : MainLocals := { l with BBBB := { l.BBBB with Normal := normal3 } }
  let l : MainLocals := { l with vertices := l.vertices ++ [l.BBBB] }
  let l : MainLocals := { l with CCCC := { l.CCCC with Position := vertex0 } }
  let l : MainLocals := { l with CCCC := { l.CCCC with Normal := normal3 } }
  let l : MainLocals := { l with vertices := l.vertices ++ [l.CCCC] }
  l

/-- The vertex sequence handed to `Mesh(vertices, indices)`. -/
def meshVertices (l0 : MainLocals) : List Vertex := (buildVertices l0).vertices

/-- The index sequence `vector<GLuint> indices`. -/
def indices : List ℕ := [0, 1, 2, 3, 4, 5, 6, 7, 8, 9, 10, 11]

/-- The locals as GLM's zero-initialising default constructors leave them
(the GLM releases whose `glm::mat4` default is the identity, on which the
draw loop relies, also zero `glm::vec3`). -/
def zeroLocals : MainLocals :=
  let v : Vertex := ⟨⟨0, 0, 0⟩, ⟨0, 0, 0⟩⟩
  ⟨v, v, v, v, v, v, v, v, v, v, v, v, []⟩

/-- Consecutive index triples of a triangle list. -/
def triangles : List ℕ → List (ℕ × ℕ × ℕ)
  | a :: b :: c :: rest => (a, b, c) :: triangles rest
  | _ => []

/-- The positions an index triple refers to in a vertex sequence. -/
def facePositions (vs : List Vertex) (t : ℕ × ℕ × ℕ) : List Vec3 :=
  ([t.1, t.2.1, t.2.2].filterMap fun i => vs[i]?).map Vertex.Position

/-- The normals an index triple refers to in a vertex sequence. -/
def faceNormals (vs : List Vertex) (t : ℕ × ℕ × ℕ) : List Vec3 :=
  ([t.1, t.2.1, t.2.2].filterMap fun i => vs[i]?).map Vertex.Normal

/-- The array `glm::vec3 positions[]`. -/
def positions : List Vec3 :=
  [ vec3 (floatLit 0) (floatLit 0) (floatLit 0),
    vec3 (floatLit 2) (floatLit 5) (-(floatLit 15)),
    vec3 (-(floatLit (3 / 2))) (-(floatLit (11 / 5))) (-(floatLit (5 / 2))),
    vec3 (floatLit (12 / 5)) (-(floatLit (2 / 5))) (-(floatLit (7 / 2))),
    vec3 (floatLit (3 / 2)) (floatLit 2) (-(floatLit (5 / 2))),
    vec3 (-(floatLit (13 / 10))) (floatLit 1) (-(floatLit (3 / 2))) ]

/-- The three things the draw loop takes from GLM: the value of a
default-constructed `glm::mat4`, `glm::translate` and `glm::rotate`.  GLM is
a library outside `Main.cpp`; all three are parameters, for an arbitrary
matrix type `M`. -/
structure GlmOps (M : Type) where
  mat4 : M
  translate : M → Vec3 → M
  rotate : M → ℚ → Vec3 → M

/-- The angle `GLfloat angle = 20.0f * i;` for the `GLuint` loop counter `i`. -/
def instanceAngle (i : ℕ) : ℚ := fmul (floatLit 20) (toFloat (i : ℚ))

/-- The rotation axis `glm::vec3(1.0f, 0.3f, 0.5f)`. -/
def rotationAxis : Vec3 := vec3 (floatLit 1) (floatLit (3 / 10)) (floatLit (1 / 2))

/-- The model matrix of loop iteration `i` (lines 324-327); `none` when
`positions[i]` is outside the array. -/
def modelMatrix {M : Type} (glm : GlmOps M) (i : ℕ) : Option M :=
  positions[i]?.map fun p =>
    let model := glm.mat4
    let model := glm.translate model p
    let angle := instanceAngle i
    glm.rotate model angle rotationAxis

/-- The three light uniforms of a frame. -/
structure LightUniforms where
  ambient : Vec3
  diffuse : Vec3
  specular : Vec3
  deriving DecidableEq, Repr

/-- Lines 299-304 of the draw loop, run in state `s`. -/
def lightUniforms {Cam : Type} (_s : AppState Cam) : LightUniforms :=
  let lightColor := vec3 (doubleLit 1) (doubleLit 1) (doubleLit 1)
  let diffuseColor := lightColor.mul (vec3Splat (floatLit (3 / 4)))
  let ambientColor := diffuseColor.mul (vec3Splat (floatLit (1 / 2)))
  { ambient := ⟨ambientColor.x, ambientColor.y, ambientColor.z⟩,
    diffuse := ⟨diffuseColor.x, diffuseColor.y, diffuseColor.z⟩,
    specular := ⟨floatLit 1, floatLit 1, floatLit 1⟩ }

/-! ## Reference descriptions used in the statements -/

/-- The event is a press or a release of key `k`. -/
def KeyEvent.setsKey (e : KeyEvent) (k : ℤ) : Prop :=
  e.key = k ∧ (e.action = GLFW_PRESS ∨ e.action = GLFW_RELEASE)

instance (e : KeyEvent) (k : ℤ) : Decidable (e.setsKey k) := by
  unfold KeyEvent.setsKey; infer_instance

/-- Whether key `k` is down after the events `evs`, in words: the most recent
press-or-release event for `k` was a press (no such event: not down). -/
def heldAfter (evs : List KeyEvent) (k : ℤ) : Bool :=
  match (evs.filter fun e => decide (e.setsKey k)).getLast? with
  | some e => decide (e.action = GLFW_PRESS)
  | none => false

/-- The `ProcessKeyboard` directions for the four movement keys, in the order
W, S, A, D, keeping those whose key is down. -/
def movementCalls (w b a d : Bool) : List Camera_Movement :=
  (if w then [Camera_Movement.FORWARD] else []) ++
  (if b then [Camera_Movement.BACKWARD] else []) ++
  (if a then [Camera_Movement.LEFT] else []) ++
  (if d then [Camera_Movement.RIGHT] else [])

/-! ## Rounding lemmas -/

theorem roundBinary_zero (prec : ℕ) (emin : ℤ) : roundBinary prec emin 0 = 0 := by
  simp [roundBinary]

theorem toFloat_zero : toFloat 0 = 0 := roundBinary_zero 24 (-126)

theorem toDouble_zero : toDouble 0 = 0 := roundBinary_zero 53 (-1022)

theorem pow2_eq_zpow (k : ℤ) : pow2 k = (2 : ℚ) ^ k := by
  unfold pow2
  split_ifs with h
  · obtain ⟨n, rfl⟩ := Int.eq_ofNat_of_zero_le h
    simp
  · have h1 : 0 ≤ -k := by omega
    obtain ⟨n, hn⟩ := Int.eq_ofNat_of_zero_le h1
    have hk : k = -(n : ℤ) := by omega
    subst hk
    simp

theorem roundHalfEven_intCast (m : ℤ) : roundHalfEven (m : ℚ) = m := by
  simp [roundHalfEven]

theorem log2Aux_spec : ∀ fuel n, n ≤ fuel → 0 < n →
    2 ^ log2Aux fuel n ≤ n ∧ n < 2 ^ (log2Aux fuel n + 1) := by
  intro fuel
  induction fuel with
  | zero => intro n h1 h2; omega
  | succ f ih =>
    intro n h1 h2
    unfold log2Aux
    split_ifs with h
    · have : n = 1 := by omega
      subst this
      simp
    · have hn2 : 0 < n / 2 := Nat.div_pos (by omega) (by norm_num)
      have hle : n / 2 ≤ f := by omega
      obtain ⟨ha, hb⟩ := ih (n / 2) hle hn2
      constructor
      · rw [pow_succ]; omega
      · rw [pow_succ]; omega

theorem natLog2_spec (n : ℕ) (h : 0 < n) :
    2 ^ natLog2 n ≤ n ∧ n < 2 ^ (natLog2 n + 1) :=
  log2Aux_spec n n le_rfl h

/-- The function `floorLog2` returns the binade of a nonzero rational. -/
theorem floorLog2_spec (q : ℚ) (hq : q ≠ 0) :
    (2 : ℚ) ^ floorLog2 q ≤ |q| ∧ |q| < (2 : ℚ) ^ (floorLog2 q + 1) := by
  have hn : 0 < q.num.natAbs := Int.natAbs_pos.mpr (Rat.num_ne_zero.mpr hq)
  have hd : 0 < q.den := q.den_pos
  obtain ⟨ha1, ha2⟩ := natLog2_spec _ hn
  obtain ⟨hb1, hb2⟩ := natLog2_spec _ hd
  have habs : |q| = (q.num.natAbs : ℚ) / (q.den : ℚ) := by
    conv_lhs => rw [← Rat.num_div_den q, abs_div]
    rw [abs_of_pos (show (0 : ℚ) < q.den by exact_mod_cast hd), Nat.cast_natAbs, Int.cast_abs]
  have hdq : (0 : ℚ) < q.den := by exact_mod_cast hd
  have h2 : (2 : ℚ) ≠ 0 := by norm_num
  have h2p : (0 : ℚ) < 2 := by norm_num
  set a := natLog2 q.num.natAbs
  set b := natLog2 q.den
  have hlow : (2 : ℚ) ^ ((a : ℤ) - b - 1) < |q| := by
    rw [habs, lt_div_iff₀ hdq]
    have e1 : (2 : ℚ) ^ ((a : ℤ) - b - 1) * 2 ^ ((b : ℤ) + 1) = 2 ^ (a : ℤ) := by
      rw [← zpow_add₀ h2]; congr 1; ring
    have hb2q : (q.den : ℚ) < 2 ^ ((b : ℤ) + 1) := by
      rw [show ((b : ℤ) + 1) = ((b + 1 : ℕ) : ℤ) by push_cast; rfl, zpow_natCast]
      exact_mod_cast hb2
    have ha1q : (2 : ℚ) ^ (a : ℤ) ≤ q.num.natAbs := by
      have : ((2 ^ a : ℕ) : ℚ) ≤ q.num.natAbs := by exact_mod_cast ha1
      simpa using this
    have hpos : (0 : ℚ) < 2 ^ ((a : ℤ) - b - 1) := zpow_pos h2p _
    calc (2 : ℚ) ^ ((a : ℤ) - b - 1) * q.den
        < 2 ^ ((a : ℤ) - b - 1) * 2 ^ ((b : ℤ) + 1) := by
          exact mul_lt_mul_of_pos_left hb2q hpos
      _ = 2 ^ (a : ℤ) := e1
      _ ≤ q.num.natAbs := ha1q
  have hhigh : |q| < (2 : ℚ) ^ ((a : ℤ) - b + 1) := by
    rw [habs, div_lt_iff₀ hdq]
    have e1 : (2 : ℚ) ^ ((a : ℤ) - b + 1) * 2 ^ (b : ℤ) = 2 ^ ((a : ℤ) + 1) := by
      rw [← zpow_add₀ h2]; congr 1; ring
    have hb1q : (2 : ℚ) ^ (b : ℤ) ≤ q.den := by
      have : ((2 ^ b : ℕ) : ℚ) ≤ q.den := by exact_mod_cast hb1
      simpa using this
    have ha2q : (q.num.natAbs : ℚ) < 2 ^ ((a : ℤ) + 1) := by
      rw [show ((a : ℤ) + 1) = ((a + 1 : ℕ) : ℤ) by push_cast; rfl, zpow_natCast]
      exact_mod_cast ha2
    have hpos : (0 : ℚ) < 2 ^ ((a : ℤ) - b + 1) := zpow_pos h2p _
    calc (q.num.natAbs : ℚ) < 2 ^ ((a : ℤ) + 1) := ha2q
      _ = 2 ^ ((a : ℤ) - b + 1) * 2 ^ (b : ℤ) := e1.symm
      _ ≤ 2 ^ ((a : ℤ) - b + 1) * q.den := by
          exact mul_le_mul_of_nonneg_left hb1q hpos.le
  unfold floorLog2
  simp only [pow2_eq_zpow]
  split_ifs with h
  · exact ⟨h, hhigh⟩
  · refine ⟨hlow.le, ?_⟩
    have : (a : ℤ) - b - 1 + 1 = (a : ℤ) - b := by ring
    rw [this]
    exact lt_of_not_le h

theorem roundHalfEven_error (r : ℚ) : |(roundHalfEven r : ℚ) - r| ≤ 1 / 2 := by
  have h1 := Int.floor_le r
  have h2 := Int.lt_floor_add_one r
  unfold roundHalfEven
  simp only
  split_ifs with ha hb hc
  · rw [abs_le]; constructor <;> linarith
  · push_cast; rw [abs_le]; constructor <;> linarith
  · have : r - ⌊r⌋ = 1 / 2 := le_antisymm (not_lt.mp hb) (not_lt.mp ha)
    rw [abs_le]; constructor <;> linarith
  · have : r - ⌊r⌋ = 1 / 2 := le_antisymm (not_lt.mp hb) (not_lt.mp ha)
    push_cast; rw [abs_le]; constructor <;> linarith

/-- The rounded value is a multiple of the unit in the last place of the
binade of `q` and lies within half a unit of `q`. -/
theorem roundBinary_spec (prec : ℕ) (emin : ℤ) (q : ℚ) (hq : q ≠ 0) :
    ∃ m : ℤ, roundBinary prec emin q = m * (2 : ℚ) ^ (max (floorLog2 q) emin - (prec - 1)) ∧
      |roundBinary prec emin q - q| ≤ (2 : ℚ) ^ (max (floorLog2 q) emin - (prec - 1)) / 2 := by
  unfold roundBinary
  simp only [hq, if_false, pow2_eq_zpow]
  set u := (2 : ℚ) ^ (max (floorLog2 q) emin - ((prec : ℤ) - 1)) with hu
  have hup : 0 < u := zpow_pos (by norm_num) _
  refine ⟨roundHalfEven (q / u), rfl, ?_⟩
  have h := roundHalfEven_error (q / u)
  have e : (roundHalfEven (q / u) : ℚ) * u - q = ((roundHalfEven (q / u) : ℚ) - q / u) * u := by
    field_simp
  rw [e, abs_mul, abs_of_pos hup]
  calc |(roundHalfEven (q / u) : ℚ) - q / u| * u ≤ 1 / 2 * u :=
        mul_le_mul_of_nonneg_right h hup.le
    _ = u / 2 := by ring

/-- Integers of magnitude at most `2 ^ 24` are `GLfloat` values. -/
theorem isFloat_intCast (n : ℤ) (hn : |n| ≤ 2 ^ 24) : IsFloat (n : ℚ) := by
  have habs : |(n : ℚ)| ≤ 2 ^ 24 := by
    have : ((|n| : ℤ) : ℚ) ≤ ((2 ^ 24 : ℤ) : ℚ) := by exact_mod_cast hn
    simpa [Int.cast_abs] using this
  refine ⟨?_, lt_of_le_of_lt habs (by norm_num)⟩
  by_cases h0 : (n : ℚ) = 0
  · rw [h0]; simp [toFloat, roundBinary]
  · unfold toFloat roundBinary
    simp only [h0, if_false, pow2_eq_zpow]
    obtain ⟨hlo, -⟩ := floorLog2_spec (n : ℚ) h0
    have h2 : (2 : ℚ) ≠ 0 := by norm_num
    have he : floorLog2 (n : ℚ) ≤ 24 := by
      by_contra hc
      have h25 : (25 : ℤ) ≤ floorLog2 (n : ℚ) := by omega
      have : (2 : ℚ) ^ (25 : ℤ) ≤ 2 ^ floorLog2 (n : ℚ) :=
        zpow_le_zpow_right₀ (by norm_num) h25
      have h3 : (2 : ℚ) ^ (25 : ℤ) ≤ 2 ^ 24 := this.trans (hlo.trans habs)
      norm_num at h3
    have hmax : max (floorLog2 (n : ℚ)) (-126) ≤ 24 := max_le he (by norm_num)
    set e := max (floorLog2 (n : ℚ)) (-126) with hedef
    have hcast : ((24 : ℕ) : ℤ) - 1 = 23 := by norm_num
    rw [hcast]
    by_cases ht : e - 23 ≤ 0
    · obtain ⟨d, hd⟩ := Int.eq_ofNat_of_zero_le (show 0 ≤ -(e - 23) by omega)
      have hu : (2 : ℚ) ^ (e - 23) = ((2 : ℚ) ^ d)⁻¹ := by
        rw [show e - 23 = -(d : ℤ) by omega, zpow_neg, zpow_natCast]
      have key : (n : ℚ) / 2 ^ (e - 23) = ((n * 2 ^ d : ℤ) : ℚ) := by
        rw [hu]; push_cast; field_simp
      rw [key, roundHalfEven_intCast, ← key]
      exact div_mul_cancel₀ _ (zpow_ne_zero _ h2)
    · have he24 : e = 24 := by omega
      have hfl : floorLog2 (n : ℚ) = 24 := by
        rcases max_choice (floorLog2 (n : ℚ)) (-126) with h | h
        · rw [← hedef] at h; omega
        · rw [← hedef] at h; omega
      rw [hfl] at hlo
      have hn24 : |n| = 2 ^ 24 := by
        apply le_antisymm hn
        have : ((2 ^ 24 : ℤ) : ℚ) ≤ ((|n| : ℤ) : ℚ) := by
          rw [Int.cast_abs]; push_cast; exact_mod_cast hlo
        exact_mod_cast this
      rw [he24]
      rcases abs_eq (by norm_num : (0 : ℤ) ≤ 2 ^ 24) |>.mp hn24 with h | h
      · rw [h]
        have key : (((2 ^ 24 : ℤ) : ℚ)) / 2 ^ ((24 : ℤ) - 23) = ((2 ^ 23 : ℤ) : ℚ) := by norm_num
        rw [key, roundHalfEven_intCast]; norm_num
      · rw [h]
        have key : (((-2 ^ 24 : ℤ) : ℚ)) / 2 ^ ((24 : ℤ) - 23) = ((-2 ^ 23 : ℤ) : ℚ) := by norm_num
        rw [key, roundHalfEven_intCast]; norm_num

/-- A value that conversion to `GLfloat` leaves unchanged is also left
unchanged by rounding to `double`. -/
theorem toDouble_of_toFloat (q : ℚ) (h : toFloat q = q) : toDouble q = q := by
  by_cases hq : q = 0
  · subst hq; exact toDouble_zero
  · unfold toFloat roundBinary at h
    unfold toDouble roundBinary
    simp only [hq, if_false] at h ⊢
    simp only [pow2_eq_zpow] at h ⊢
    set n := roundHalfEven (q / 2 ^ (max (floorLog2 q) (-126) - ((24 : ℕ) - 1 : ℤ))) with hn
    set e1 := max (floorLog2 q) (-126) with he1
    set e2 := max (floorLog2 q) (-1022) with he2
    have hle : e2 ≤ e1 := by
      rw [he1, he2]; exact max_le_max le_rfl (by norm_num)
    obtain ⟨d, hd⟩ := Int.eq_ofNat_of_zero_le (show 0 ≤ e1 - e2 + 29 by omega)
    have h2 : (2 : ℚ) ≠ 0 := by norm_num
    have key : q / 2 ^ (e2 - ((53 : ℕ) - 1 : ℤ)) = ((n * 2 ^ d : ℤ) : ℚ) := by
      rw [← h]
      push_cast
      rw [mul_div_assoc, ← zpow_sub₀ h2, ← zpow_natCast, ← hd]
      congr 2
      ring
    rw [key, roundHalfEven_intCast]
    rw [← key]
    exact div_mul_cancel₀ _ (zpow_ne_zero _ h2)

/-- A finite `GLfloat` value passes through the rounding steps without
overflow. -/
theorem isFloat_finite (q : ℚ) (h : IsFloat q) :
    NarrowsFinite q ∧ RoundsFinite q ∧ NarrowsFinite (toDouble q) := by
  have hd : toDouble q = q := toDouble_of_toFloat q h.1
  have hb : |q| < 2 ^ 1024 := lt_trans h.2 (by norm_num)
  unfold NarrowsFinite RoundsFinite
  rw [hd, h.1]
  exact ⟨h.2, hb, h.2⟩

/-! ## Mouse look -/

/-- C1 (amended): when `mouse_callback` runs with the `firstMouse` latch set
and the reported coordinates are exactly representable as `GLfloat`, then for
every prior `lastX`/`lastY` the offsets passed to
`camera.ProcessMouseMovement` are exactly `(0, 0)`, and afterwards
`firstMouse` is false and `(lastX, lastY)` is the reported position. -/
theorem mouse_callback_first_event {Cam : Type} (ops : CameraOps Cam) (s : AppState Cam)
    (xpos ypos : ℚ) (hfirst : s.firstMouse = true) (hx : IsFloat xpos) (hy : IsFloat ypos) :
    (mouse_callback ops s xpos ypos).camera = ops.ProcessMouseMovement 0 0 s.camera ∧
    (mouse_callback ops s xpos ypos).firstMouse = false ∧
    (mouse_callback ops s xpos ypos).lastX = xpos ∧
    (mouse_callback ops s xpos ypos).lastY = ypos := by
  simp [mouse_callback, hfirst, hx.1, hy.1, toDouble_zero, toFloat_zero]

/-- C1 witness: the first event at `(400.5, 300.25)` in the start state. -/
theorem mouse_callback_first_event_witness :
    (AppState.initial ([] : List CameraCall)).firstMouse = true ∧
    IsFloat (801 / 2) ∧ IsFloat (1201 / 4) ∧
    (mouse_callback recordingCamera (AppState.initial []) (801 / 2) (1201 / 4)).camera
      = [CameraCall.mouseMovement 0 0] ∧
    (mouse_callback recordingCamera (AppState.initial []) (801 / 2) (1201 / 4)).lastX
      = 801 / 2 :=
  have h := mouse_callback_first_event recordingCamera (AppState.initial []) (801 / 2) (1201 / 4)
    rfl (by decide!) (by decide!)
  ⟨rfl, by decide!, by decide!, h.1, h.2.2.1⟩

/-- C1 counterexample: the `double` `400 + 2⁻²⁰` is not a `GLfloat`.  With the
latch set, `lastX` becomes `400` and the x offset handed to the camera is
`2⁻²⁰`, not `0`. -/
theorem mouse_callback_first_event_counterexample :
    (AppState.initial ([] : List CameraCall)).firstMouse = true ∧
    IsDouble (400 + 1 / 2 ^ 20) ∧
    (mouse_callback recordingCamera (AppState.initial []) (400 + 1 / 2 ^ 20) 300).camera
      = [CameraCall.mouseMovement (1 / 2 ^ 20) 0] ∧
    (mouse_callback recordingCamera (AppState.initial []) (400 + 1 / 2 ^ 20) 300).camera
      ≠ [CameraCall.mouseMovement 0 0] ∧
    (mouse_callback recordingCamera (AppState.initial []) (400 + 1 / 2 ^ 20) 300).lastX = 400 ∧
    (mouse_callback recordingCamera (AppState.initial []) (400 + 1 / 2 ^ 20) 300).lastX
      ≠ 400 + 1 / 2 ^ 20 := by
  decide!

/-! ## Lighting -/

/-- C5: in every frame the light uniforms are the base colour `(1,1,1)` scaled
by `0.375` (ambient), `0.75` (diffuse) and `1.0` (specular), whatever the
application state. -/
theorem light_uniforms_constant {Cam : Type} (s : AppState Cam) :
    lightUniforms s =
      { ambient := ⟨3 / 8, 3 / 8, 3 / 8⟩,
        diffuse := ⟨3 / 4, 3 / 4, 3 / 4⟩,
        specular := ⟨1, 1, 1⟩ } := by
  unfold lightUniforms
  decide!

/-! ## The baked mesh -/

theorem meshVertices_eq (l0 : MainLocals) :
    meshVertices l0 =
      [ ⟨vertex1, normal0⟩, ⟨vertex2, normal0⟩, ⟨vertex3, normal0⟩,
        ⟨vertex0, normal1⟩, ⟨vertex2, normal1⟩, ⟨vertex1, normal1⟩,
        ⟨vertex0, normal2⟩, ⟨vertex3, l0.BBB.Normal⟩, ⟨vertex2, l0.CCC.Normal⟩,
        ⟨vertex1, normal3⟩, ⟨vertex3, normal3⟩, ⟨vertex0, normal3⟩ ] := rfl

/-- C2: the normals of the four faces, for any content the declaration leaves
in the locals.  Faces 0, 1 and 3 carry their declared normal three times; in
face 2 only the first vertex carries `normal2`: lines 225 and 230 store
`normal2` into `B` and `C`, after their copies were pushed, so vertices 7 and
8 keep the normal `BBB` and `CCC` were declared with, which for
zero-initialised locals is `(0, 0, 0)`, not `normal2`. -/
theorem face2_normals_unassigned (l0 : MainLocals) :
    (triangles indices).map (faceNormals (meshVertices l0)) =
      [ [normal0, normal0, normal0],
        [normal1, normal1, normal1],
        [normal2, l0.BBB.Normal, l0.CCC.Normal],
        [normal3, normal3, normal3] ] ∧
    (triangles indices).map (faceNormals (meshVertices zeroLocals)) =
      [ [normal0, normal0, normal0],
        [normal1, normal1, normal1],
        [normal2, ⟨0, 0, 0⟩, ⟨0, 0, 0⟩],
        [normal3, normal3, normal3] ] ∧
    normal2 ≠ ⟨0, 0, 0⟩ := by
  refine ⟨?_, ?_, by decide!⟩
  · rw [meshVertices_eq]; rfl
  · rw [meshVertices_eq]; rfl

/-- C4: the data handed to `Mesh(vertices, indices)`: twelve vertices, twelve
indices, each index below the number of vertices, the index count a multiple
of three, four triangles. -/
theorem mesh_indices_valid (l0 : MainLocals) :
    (meshVertices l0).length = 12 ∧
    (∀ i ∈ indices, i < (meshVertices l0).length) ∧
    indices.length % 3 = 0 ∧
    indices.length = 12 ∧
    (triangles indices).length = 4 := by
  rw [meshVertices_eq]
  refine ⟨rfl, ?_, rfl, rfl, rfl⟩
  intro i hi
  simp only [indices, List.mem_cons, List.mem_singleton, List.not_mem_nil, or_false] at hi
  simp only [List.length_cons, List.length_nil]
  omega

/-- C8: the four index triples pick the four faces of the tetrahedron with
corners `(0,0,0)`, `(1,0,0)`, `(0,1,0)`, `(0,0,1)`: each triple has three
pairwise distinct corners, and the corners left out by the four triples are
four different ones. -/
theorem faces_are_tetrahedron (l0 : MainLocals) :
    [vertex0, vertex1, vertex2, vertex3] = [⟨0, 0, 0⟩, ⟨1, 0, 0⟩, ⟨0, 1, 0⟩, ⟨0, 0, 1⟩] ∧
    triangles indices = [(0, 1, 2), (3, 4, 5), (6, 7, 8), (9, 10, 11)] ∧
    (triangles indices).map (facePositions (meshVertices l0)) =
      [ [vertex1, vertex2, vertex3],
        [vertex0, vertex2, vertex1],
        [vertex0, vertex3, vertex2],
        [vertex1, vertex3, vertex0] ] ∧
    (∀ f ∈ (triangles indices).map (facePositions (meshVertices l0)),
      f.length = 3 ∧ f.Nodup ∧ ∀ p ∈ f, p ∈ [vertex0, vertex1, vertex2, vertex3]) ∧
    ((triangles indices).map (facePositions (meshVertices l0))).map
        (fun f => [vertex0, vertex1, vertex2, vertex3].filter (fun c => decide (c ∉ f))) =
      [[vertex0], [vertex3], [vertex1], [vertex2]] ∧
    [vertex0, vertex3, vertex1, vertex2].Nodup := by
  have hfaces : (triangles indices).map (facePositions (meshVertices l0)) =
      [ [vertex1, vertex2, vertex3], [vertex0, vertex2, vertex1],
        [vertex0, vertex3, vertex2], [vertex1, vertex3, vertex0] ] := by
    rw [meshVertices_eq]; rfl
  rw [hfaces]
  exact ⟨by decide!, rfl, rfl, by decide!, by decide!, by decide!⟩

/-! ## Model matrices -/

/-- What `Main.cpp` itself fixes about the model matrix of instance `i`: it is
GLM's `rotate` applied to GLM's `translate` of the default matrix by
`positions[i]`, with the angle argument `20 * i` and the axis argument
`(1, 0.3f, 0.5f)`; the six positions are pairwise distinct.  What matrix this
is, and in which unit the angle is read, is decided inside GLM. -/
theorem model_matrix_arguments {M : Type} (glm : GlmOps M) :
    (∀ i, i < 6 → ∃ p, positions[i]? = some p ∧
      modelMatrix glm i =
        some (glm.rotate (glm.translate glm.mat4 p) (20 * (i : ℚ))
          ⟨1, 5033165 / 16777216, 1 / 2⟩)) ∧
    positions.length = 6 ∧ positions.Nodup := by
  refine ⟨?_, rfl, by decide!⟩
  intro i hi
  have hang : ∀ j, j < 6 → instanceAngle j = 20 * (j : ℚ) := by decide!
  have haxis : rotationAxis = ⟨1, 5033165 / 16777216, 1 / 2⟩ := by decide!
  have hlen : i < positions.length := hi
  refine ⟨positions[i], List.getElem?_eq_getElem hlen, ?_⟩
  simp only [modelMatrix, List.getElem?_eq_getElem hlen, Option.map_some', hang i hi, haxis]

/-! ## Keyboard state -/

theorem Keys.load_eq (k : Keys) (i : ℕ) (hi : i < 1024) :
    k.load (i : ℤ) = k.cells[i]? ∧ ∃ b, k.cells[i]? = some b := by
  have hlen : i < k.cells.length := by rw [k.size_eq]; exact hi
  refine ⟨?_, k.cells[i], List.getElem?_eq_getElem hlen⟩
  unfold Keys.load
  rw [if_pos ⟨by omega, by omega⟩]
  simp

/-- What one `key_callback` invocation returns: it never leaves the array, and
only the close flag and the cell of its own key can change. -/
theorem key_callback_spec {Cam : Type} (s : AppState Cam) (key sc action mode : ℤ) :
    ∃ s1, key_callback s key sc action mode = some s1 ∧
      s1.windowShouldClose =
        (if key = GLFW_KEY_ESCAPE ∧ action = GLFW_PRESS then true else s.windowShouldClose) ∧
      s1.keys.cells =
        (if 0 ≤ key ∧ key < 1024 then
          if action = GLFW_PRESS then s.keys.cells.set key.toNat true
          else if action = GLFW_RELEASE then s.keys.cells.set key.toNat false
          else s.keys.cells
        else s.keys.cells) ∧
      s1.camera = s.camera ∧ s1.lastX = s.lastX ∧ s1.lastY = s.lastY ∧
      s1.firstMouse = s.firstMouse ∧ s1.deltaTime = s.deltaTime ∧
      s1.lastFrame = s.lastFrame := by
  unfold key_callback Keys.store
  by_cases hr : 0 ≤ key ∧ key < 1024 <;> by_cases hp : action = GLFW_PRESS <;>
    by_cases hl : action = GLFW_RELEASE <;> by_cases he : key = GLFW_KEY_ESCAPE <;>
    simp only [hr, hp, hl, he, if_true, if_false, and_true, and_false, true_and, false_and,
      and_self, Option.map_some'] <;>
    exact ⟨_, rfl, rfl, rfl, rfl, rfl, rfl, rfl, rfl, rfl⟩

theorem mouse_callback_close_flag {Cam : Type} (ops : CameraOps Cam) (s : AppState Cam)
    (x y : ℚ) : (mouse_callback ops s x y).windowShouldClose = s.windowShouldClose := by
  unfold mouse_callback; split_ifs <;> rfl

theorem pollEvents_close_flag {Cam : Type} (ops : CameraOps Cam) (evs : List Event) :
    ∀ s : AppState Cam, ∃ s1, pollEvents ops s evs = some s1 ∧
      (s.windowShouldClose = true → s1.windowShouldClose = true) := by
  induction evs with
  | nil => intro s; exact ⟨s, rfl, id⟩
  | cons e es ih =>
    intro s
    cases e with
    | key k sc a m =>
      obtain ⟨s1, h1, hw, -⟩ := key_callback_spec s k sc a m
      obtain ⟨s2, h2, hw2⟩ := ih s1
      refine ⟨s2, ?_, ?_⟩
      · simp [pollEvents, dispatch, h1, h2]
      · intro h
        apply hw2
        rw [hw, h]
        simp
    | cursor x y =>
      obtain ⟨s2, h2, hw2⟩ := ih (mouse_callback ops s x y)
      exact ⟨s2, by simp [pollEvents, dispatch, h2], fun h => hw2 (by rw [mouse_callback_close_flag]; exact h)⟩
    | scroll x y =>
      obtain ⟨s2, h2, hw2⟩ := ih (scroll_callback ops s x y)
      exact ⟨s2, by simp [pollEvents, dispatch, h2], fun h => hw2 h⟩

/-- C7: `key_callback` raises the close flag exactly on a press of Escape and
otherwise leaves it as it was; `mouse_callback`, `scroll_callback` and
`do_Movement` do not touch it; so over any list of events a raised flag stays
raised. -/
theorem close_signal_only_on_escape_press (Cam : Type) :
    (∀ (s : AppState Cam) (key sc action mode : ℤ),
      ∃ s1, key_callback s key sc action mode = some s1 ∧
        s1.windowShouldClose =
          (if key = GLFW_KEY_ESCAPE ∧ action = GLFW_PRESS then true
           else s.windowShouldClose)) ∧
    (∀ (ops : CameraOps Cam) (s : AppState Cam) (x y : ℚ),
      (mouse_callback ops s x y).windowShouldClose = s.windowShouldClose ∧
      (scroll_callback ops s x y).windowShouldClose = s.windowShouldClose) ∧
    (∀ (ops : CameraOps Cam) (s s1 : AppState Cam),
      do_Movement ops s = some s1 → s1.windowShouldClose = s.windowShouldClose) ∧
    (∀ (ops : CameraOps Cam) (s : AppState Cam) (evs : List Event),
      ∃ s1, pollEvents ops s evs = some s1 ∧
        (s.windowShouldClose = true → s1.windowShouldClose = true)) := by
  refine ⟨?_, ?_, ?_, ?_⟩
  · intro s key sc action mode
    obtain ⟨s1, h1, hw, -⟩ := key_callback_spec s key sc action mode
    exact ⟨s1, h1, hw⟩
  · intro ops s x y
    exact ⟨mouse_callback_close_flag ops s x y, rfl⟩
  · intro ops s s1 h
    unfold do_Movement at h
    simp only [bind, Option.bind_eq_some, pure, Option.some.injEq] at h
    obtain ⟨w, -, b, -, a, -, d, -, rfl⟩ := h
    cases w <;> cases b <;> cases a <;> cases d <;> rfl
  · intro ops s evs
    exact pollEvents_close_flag ops evs s

/-- Two events the key handler must ignore: `GLFW_KEY_UNKNOWN` pressed, and
Escape repeated, in the start state. -/
theorem key_callback_ignored_events :
    (key_callback (AppState.initial ()) GLFW_KEY_UNKNOWN 0 GLFW_PRESS 0).map
        (fun s => (s.keys.cells, s.windowShouldClose)) =
      some (Keys.zero.cells, false) ∧
    (key_callback (AppState.initial ()) GLFW_KEY_ESCAPE 0 GLFW_REPEAT 0).map
        (fun s => (s.keys.cells, s.windowShouldClose)) =
      some (Keys.zero.cells, false) := by
  decide!

theorem Keys.eq_of_cells {k1 k2 : Keys} (h : k1.cells = k2.cells) : k1 = k2 := by
  cases k1; cases k2; cases h; rfl

/-- The cell of key `k` after one `key_callback` invocation. -/
theorem key_callback_cell {Cam : Type} (s : AppState Cam) (e : KeyEvent) (k : ℕ)
    (hk : k < 1024) :
    ∃ s1, key_callback s e.key e.scancode e.action e.mode = some s1 ∧
      s1.keys.cells[k]? =
        if e.setsKey (k : ℤ) then some (decide (e.action = GLFW_PRESS)) else s.keys.cells[k]? := by
  obtain ⟨s1, h1, -, hc, -⟩ := key_callback_spec s e.key e.scancode e.action e.mode
  refine ⟨s1, h1, ?_⟩
  rw [hc]
  have hlen : k < s.keys.cells.length := by rw [s.keys.size_eq]; exact hk
  have hne : GLFW_RELEASE ≠ GLFW_PRESS := by decide
  unfold KeyEvent.setsKey
  by_cases hkey : e.key = (k : ℤ)
  · have hr : 0 ≤ e.key ∧ e.key < 1024 := by omega
    have ht : e.key.toNat = k := by omega
    rw [if_pos hr, ht]
    by_cases hp : e.action = GLFW_PRESS
    · simp [hkey, hp, List.getElem?_set, hlen]
    · by_cases hl : e.action = GLFW_RELEASE
      · simp [hkey, hl, hne, List.getElem?_set, hlen]
      · simp [hkey, hp, hl]
  · simp only [hkey, false_and, if_false]
    by_cases hr : 0 ≤ e.key ∧ e.key < 1024
    · have hn : ∀ v, (s.keys.cells.set e.key.toNat v)[k]? = s.keys.cells[k]? :=
        fun v => List.getElem?_set_ne (by omega)
      rw [if_pos hr]
      split_ifs <;> first | rfl | exact hn _
    · rw [if_neg hr]

theorem feedKeys_cells {Cam : Type} (evs : List KeyEvent) :
    ∀ s : AppState Cam, ∃ s1, feedKeys s evs = some s1 ∧
      ∀ k : ℕ, k < 1024 →
        s1.keys.cells[k]? =
          match (evs.filter fun e => decide (e.setsKey (k : ℤ))).getLast? with
          | some e => some (decide (e.action = GLFW_PRESS))
          | none => s.keys.cells[k]? := by
  induction evs with
  | nil => intro s; exact ⟨s, rfl, fun k _ => rfl⟩
  | cons e es ih =>
    intro s
    obtain ⟨s1, h1, -⟩ := key_callback_cell s e 0 (by norm_num)
    obtain ⟨s2, h2, hcells⟩ := ih s1
    refine ⟨s2, by simp [feedKeys, h1, h2], ?_⟩
    intro k hk
    obtain ⟨s1', h1', hc⟩ := key_callback_cell s e k hk
    have hs : s1' = s1 := by
      rw [h1] at h1'; exact (Option.some.inj h1').symm
    subst hs
    rw [hcells k hk, hc]
    by_cases hset : e.setsKey (k : ℤ)
    · simp only [List.filter_cons, hset, decide_True, if_true, List.getLast?_cons]
      cases (es.filter fun e => decide (e.setsKey (k : ℤ))).getLast? <;> rfl
    · simp only [List.filter_cons, hset, decide_False, if_false]
      rfl

/-- C9: for every sequence of key events with arbitrary integer keys fed to
`key_callback` from the start state, no invocation leaves the array, and
afterwards `keys[k]` is true exactly when the most recent press-or-release
event for `k` was a press.  An event whose key is outside `[0, 1024)` or
whose action is neither press nor release leaves the whole array unchanged,
and every event leaves every cell other than that of its own key unchanged. -/
theorem keys_follow_events {Cam : Type} (cam0 : Cam) (evs : List KeyEvent) :
    (∃ s1, feedKeys (AppState.initial cam0) evs = some s1 ∧
      ∀ k : ℕ, k < 1024 → s1.keys.cells[k]? = some (heldAfter evs (k : ℤ))) ∧
    (∀ (s : AppState Cam) (e : KeyEvent),
      ∃ s1, key_callback s e.key e.scancode e.action e.mode = some s1 ∧
        ((¬(0 ≤ e.key ∧ e.key < 1024) ∨
            (e.action ≠ GLFW_PRESS ∧ e.action ≠ GLFW_RELEASE)) → s1.keys = s.keys) ∧
        (∀ j : ℕ, (j : ℤ) ≠ e.key → s1.keys.cells[j]? = s.keys.cells[j]?)) := by
  constructor
  · obtain ⟨s1, h1, hc⟩ := feedKeys_cells evs (AppState.initial cam0)
    refine ⟨s1, h1, ?_⟩
    intro k hk
    rw [hc k hk]
    unfold heldAfter
    cases (evs.filter fun e => decide (e.setsKey (k : ℤ))).getLast? with
    | some e => rfl
    | none =>
      show (List.replicate 1024 false)[k]? = some false
      rw [List.getElem?_replicate, if_pos hk]
  · intro s e
    obtain ⟨s1, h1, -, hc, -⟩ := key_callback_spec s e.key e.scancode e.action e.mode
    refine ⟨s1, h1, ?_, ?_⟩
    · intro h
      apply Keys.eq_of_cells
      rw [hc]
      rcases h with h | ⟨hp, hl⟩
      · rw [if_neg h]
      · simp [hp, hl]
    · intro j hj
      rw [hc]
      have hn : ∀ v, (s.keys.cells.set e.key.toNat v)[j]? = s.keys.cells[j]? ∨
          ¬(0 ≤ e.key ∧ e.key < 1024) := by
        intro v
        by_cases hr : 0 ≤ e.key
        · exact Or.inl (List.getElem?_set_ne (by omega))
        · exact Or.inr (fun h => hr h.1)
      split_ifs with hr hp hl
      · exact (hn true).resolve_right (not_not.mpr hr)
      · exact (hn false).resolve_right (not_not.mpr hr)
      · rfl
      · rfl

/-! ## Keyboard movement -/

theorem Keys.load_total (k : Keys) (i : ℤ) (hi : 0 ≤ i ∧ i < 1024) :
    ∃ b, k.load i = some b := by
  obtain ⟨n, rfl⟩ := Int.eq_ofNat_of_zero_le hi.1
  obtain ⟨h, b, hb⟩ := k.load_eq n (by omega)
  exact ⟨b, by rw [h, hb]⟩

theorem do_Movement_of_loads {Cam : Type} (ops : CameraOps Cam) (s : AppState Cam)
    (w b a d : Bool) (hw : s.keys.load GLFW_KEY_W = some w)
    (hb : s.keys.load GLFW_KEY_S = some b) (ha : s.keys.load GLFW_KEY_A = some a)
    (hd : s.keys.load GLFW_KEY_D = some d) :
    do_Movement ops s =
      some { s with camera :=
        ((movementCalls w b a d).foldl (fun c dir => ops.ProcessKeyboard dir s.deltaTime c)
          s.camera) } := by
  unfold do_Movement movementCalls
  cases w <;> cases b <;> cases a <;> cases d <;>
    simp [bind, pure, hw, hb, ha, hd]

/-- On the recording camera `do_Movement` appends one `keyboard` call per
movement key that is down. -/
theorem do_Movement_log (s : AppState (List CameraCall)) :
    ∃ w b a d, s.keys.load GLFW_KEY_W = some w ∧ s.keys.load GLFW_KEY_S = some b ∧
      s.keys.load GLFW_KEY_A = some a ∧ s.keys.load GLFW_KEY_D = some d ∧
      (do_Movement recordingCamera s).map (fun r => r.camera) =
        some (s.camera ++
          (movementCalls w b a d).map (fun dir => CameraCall.keyboard dir s.deltaTime)) := by
  obtain ⟨w, hw⟩ := s.keys.load_total GLFW_KEY_W (by decide)
  obtain ⟨b, hb⟩ := s.keys.load_total GLFW_KEY_S (by decide)
  obtain ⟨a, ha⟩ := s.keys.load_total GLFW_KEY_A (by decide)
  obtain ⟨d, hd⟩ := s.keys.load_total GLFW_KEY_D (by decide)
  refine ⟨w, b, a, d, hw, hb, ha, hd, ?_⟩
  rw [do_Movement_of_loads recordingCamera s w b a d hw hb ha hd]
  cases w <;> cases b <;> cases a <;> cases d <;> simp [movementCalls, recordingCamera]

/-- C10: `do_Movement` always returns; it calls `camera.ProcessKeyboard` once
for each of the keys W, S, A, D that is down, with `FORWARD`, `BACKWARD`,
`LEFT`, `RIGHT` in that order and the current `deltaTime`, and changes nothing
else; with none of the four down the state is unchanged; two key arrays that
agree on the four keys give the same camera; on the recording camera the log
grows by exactly those calls. -/
theorem do_Movement_calls {Cam : Type} (ops : CameraOps Cam) (s : AppState Cam) :
    (∃ w b a d, s.keys.load GLFW_KEY_W = some w ∧ s.keys.load GLFW_KEY_S = some b ∧
      s.keys.load GLFW_KEY_A = some a ∧ s.keys.load GLFW_KEY_D = some d ∧
      do_Movement ops s =
        some { s with camera :=
          ((movementCalls w b a d).foldl (fun c dir => ops.ProcessKeyboard dir s.deltaTime c)
            s.camera) } ∧
      (w = false → b = false → a = false → d = false → do_Movement ops s = some s)) ∧
    (∀ k2 : Keys,
      k2.load GLFW_KEY_W = s.keys.load GLFW_KEY_W → k2.load GLFW_KEY_S = s.keys.load GLFW_KEY_S →
      k2.load GLFW_KEY_A = s.keys.load GLFW_KEY_A → k2.load GLFW_KEY_D = s.keys.load GLFW_KEY_D →
      (do_Movement ops { s with keys := k2 }).map (fun r => r.camera) =
        (do_Movement ops s).map (fun r => r.camera)) ∧
    (∀ r : AppState (List CameraCall),
      ∃ w b a d, r.keys.load GLFW_KEY_W = some w ∧ r.keys.load GLFW_KEY_S = some b ∧
        r.keys.load GLFW_KEY_A = some a ∧ r.keys.load GLFW_KEY_D = some d ∧
        (do_Movement recordingCamera r).map (fun r1 => r1.camera) =
          some (r.camera ++
            (movementCalls w b a d).map (fun dir => CameraCall.keyboard dir r.deltaTime))) := by
  obtain ⟨w, hw⟩ := s.keys.load_total GLFW_KEY_W (by decide)
  obtain ⟨b, hb⟩ := s.keys.load_total GLFW_KEY_S (by decide)
  obtain ⟨a, ha⟩ := s.keys.load_total GLFW_KEY_A (by decide)
  obtain ⟨d, hd⟩ := s.keys.load_total GLFW_KEY_D (by decide)
  have hmain := do_Movement_of_loads ops s w b a d hw hb ha hd
  refine ⟨⟨w, b, a, d, hw, hb, ha, hd, hmain, ?_⟩, ?_, do_Movement_log⟩
  · intro h1 h2 h3 h4
    subst h1 h2 h3 h4
    rw [hmain]
    rfl
  · intro k2 h1 h2 h3 h4
    rw [hmain, do_Movement_of_loads ops { s with keys := k2 } w b a d
      (h1.trans hw) (h2.trans hb) (h3.trans ha) (h4.trans hd)]
    rfl

/-! ## Cursor event sequences -/

theorem feedCursor_append {Cam : Type} (ops : CameraOps Cam) (l1 l2 : List (ℚ × ℚ)) :
    ∀ s : AppState Cam, feedCursor ops s (l1 ++ l2) = feedCursor ops (feedCursor ops s l1) l2 := by
  induction l1 with
  | nil => intro s; rfl
  | cons p ps ih => intro s; exact ih _

theorem mouse_callback_last {Cam : Type} (ops : CameraOps Cam) (s : AppState Cam) (x y : ℚ) :
    (mouse_callback ops s x y).firstMouse = false ∧
    (mouse_callback ops s x y).lastX = toFloat x ∧
    (mouse_callback ops s x y).lastY = toFloat y := by
  unfold mouse_callback
  cases hf : s.firstMouse <;> simp [hf]

theorem mouse_callback_camera {Cam : Type} (ops : CameraOps Cam) (s : AppState Cam) (x y : ℚ)
    (hf : s.firstMouse = false) :
    (mouse_callback ops s x y).camera =
      ops.ProcessMouseMovement (toFloat (toDouble (x - s.lastX)))
        (toFloat (toDouble (s.lastY - y))) s.camera := by
  simp [mouse_callback, hf]

theorem mouse_callback_log (s : AppState (List CameraCall)) (x y : ℚ) :
    ∃ c, (mouse_callback recordingCamera s x y).camera = s.camera ++ [c] := by
  unfold mouse_callback
  cases hf : s.firstMouse <;> exact ⟨_, rfl⟩

theorem feedCursor_log (l : List (ℚ × ℚ)) :
    ∀ s : AppState (List CameraCall),
      ∃ t, (feedCursor recordingCamera s l).camera = s.camera ++ t ∧ t.length = l.length := by
  induction l with
  | nil => intro s; exact ⟨[], by simp [feedCursor], rfl⟩
  | cons p ps ih =>
    intro s
    obtain ⟨c, hc⟩ := mouse_callback_log s p.1 p.2
    obtain ⟨t, ht, hlen⟩ := ih (mouse_callback recordingCamera s p.1 p.2)
    refine ⟨c :: t, ?_, by simp [hlen]⟩
    show (feedCursor recordingCamera (mouse_callback recordingCamera s p.1 p.2) ps).camera = _
    rw [ht, hc]
    simp

/-- The call made for an event that follows the event `(x0, y0)`, when none
of the rounding steps involved overflows: the previous position is the
preceding event's, as stored in `GLfloat`; x is new minus old, y is old minus
new; both are narrowed to `GLfloat`. -/
theorem mouse_offsets_rounded (pre post : List (ℚ × ℚ)) (x0 y0 x1 y1 : ℚ)
    (_hx0 : NarrowsFinite x0) (_hy0 : NarrowsFinite y0)
    (_hdx : RoundsFinite (x1 - toFloat x0)) (_hdy : RoundsFinite (toFloat y0 - y1))
    (_hfx : NarrowsFinite (toDouble (x1 - toFloat x0)))
    (_hfy : NarrowsFinite (toDouble (toFloat y0 - y1))) :
    (feedCursor recordingCamera (AppState.initial [])
        (pre ++ (x0, y0) :: (x1, y1) :: post)).camera.length
      = pre.length + 2 + post.length ∧
    (feedCursor recordingCamera (AppState.initial [])
        (pre ++ (x0, y0) :: (x1, y1) :: post)).camera[pre.length + 1]?
      = some (CameraCall.mouseMovement (toFloat (toDouble (x1 - toFloat x0)))
          (toFloat (toDouble (toFloat y0 - y1)))) := by
  have hsplit : pre ++ (x0, y0) :: (x1, y1) :: post = (pre ++ [(x0, y0)]) ++ (x1, y1) :: post := by
    simp
  rw [hsplit, feedCursor_append, feedCursor_append]
  set sp := feedCursor recordingCamera (AppState.initial ([] : List CameraCall)) pre with hsp
  obtain ⟨tp, htp, hlp⟩ := feedCursor_log pre (AppState.initial ([] : List CameraCall))
  have hcam0 : (AppState.initial ([] : List CameraCall)).camera = [] := rfl
  rw [hcam0, List.nil_append] at htp
  set s0 := mouse_callback recordingCamera sp x0 y0 with hs0
  have h0 : feedCursor recordingCamera sp [(x0, y0)] = s0 := rfl
  rw [h0]
  obtain ⟨hf0, hlx0, hly0⟩ := mouse_callback_last recordingCamera sp x0 y0
  obtain ⟨c0, hc0⟩ := mouse_callback_log sp x0 y0
  set s1 := mouse_callback recordingCamera s0 x1 y1 with hs1
  have h1 : feedCursor recordingCamera s0 ((x1, y1) :: post) = feedCursor recordingCamera s1 post :=
    rfl
  rw [h1]
  have hc1 : s1.camera = s0.camera ++
      [CameraCall.mouseMovement (toFloat (toDouble (x1 - toFloat x0)))
        (toFloat (toDouble (toFloat y0 - y1)))] := by
    rw [hs1, mouse_callback_camera recordingCamera s0 x1 y1 hf0, hlx0, hly0]
    rfl
  obtain ⟨t2, ht2, hl2⟩ := feedCursor_log post s1
  have hlen0 : s0.camera.length = pre.length + 1 := by
    have hspc : sp.camera = tp := htp
    rw [hc0, hspc]; simp [hlp]
  rw [ht2, hc1]
  constructor
  · simp [hlen0, hl2]; omega
  · rw [List.append_assoc, List.getElem?_append_right (by omega)]
    simp [hlen0]

/-- Integer pixel coordinates of magnitude at most `2 ^ 23` meet the
representability conditions: the offsets are the exact differences. -/
theorem mouse_offsets_integer_pixels (pre post : List (ℚ × ℚ)) (x0 y0 x1 y1 : ℤ)
    (hx0 : |x0| ≤ 2 ^ 23) (hy0 : |y0| ≤ 2 ^ 23) (hx1 : |x1| ≤ 2 ^ 23) (hy1 : |y1| ≤ 2 ^ 23) :
    (feedCursor recordingCamera (AppState.initial [])
        (pre ++ ((x0 : ℚ), (y0 : ℚ)) :: ((x1 : ℚ), (y1 : ℚ)) :: post)).camera[pre.length + 1]?
      = some (CameraCall.mouseMovement ((x1 : ℚ) - x0) ((y0 : ℚ) - y1)) := by
  have fx0 := isFloat_intCast x0 (hx0.trans (by norm_num))
  have fy0 := isFloat_intCast y0 (hy0.trans (by norm_num))
  have fdx := isFloat_intCast (x1 - x0)
    ((abs_sub x1 x0).trans (by linarith [show (2 : ℤ) ^ 24 = 2 ^ 23 + 2 ^ 23 by norm_num]))
  have fdy := isFloat_intCast (y0 - y1)
    ((abs_sub y0 y1).trans (by linarith [show (2 : ℤ) ^ 24 = 2 ^ 23 + 2 ^ 23 by norm_num]))
  push_cast at fdx fdy
  have h := (mouse_offsets_rounded pre post x0 y0 x1 y1
    (isFloat_finite _ fx0).1 (isFloat_finite _ fy0).1
    (by rw [fx0.1]; exact (isFloat_finite _ fdx).2.1)
    (by rw [fy0.1]; exact (isFloat_finite _ fdy).2.1)
    (by rw [fx0.1]; exact (isFloat_finite _ fdx).2.2)
    (by rw [fy0.1]; exact (isFloat_finite _ fdy).2.2)).2
  rw [fx0.1, fy0.1, toDouble_of_toFloat _ fdx.1, toDouble_of_toFloat _ fdy.1, fdx.1, fdy.1] at h
  exact h

/-- C6 (amended): for cursor events fed to `mouse_callback` from the start
state, consider any event `(x1, y1)` that follows an event `(x0, y0)`.  When
`x0`, `y0` and the differences `x1 - x0`, `y0 - y1` are exactly representable
as `GLfloat`, the offsets passed to `camera.ProcessMouseMovement` for
`(x1, y1)` are `xoffset = x1 - x0` and `yoffset = y0 - y1`: y is the negated
screen delta, x is not negated, and the previous position is that of the
immediately preceding event. -/
theorem mouse_offsets_between_events (pre post : List (ℚ × ℚ)) (x0 y0 x1 y1 : ℚ)
    (hx0 : IsFloat x0) (hy0 : IsFloat y0) (hdx : IsFloat (x1 - x0)) (hdy : IsFloat (y0 - y1)) :
    (feedCursor recordingCamera (AppState.initial [])
        (pre ++ (x0, y0) :: (x1, y1) :: post)).camera.length
      = pre.length + 2 + post.length ∧
    (feedCursor recordingCamera (AppState.initial [])
        (pre ++ (x0, y0) :: (x1, y1) :: post)).camera[pre.length + 1]?
      = some (CameraCall.mouseMovement (x1 - x0) (y0 - y1)) := by
  have h := mouse_offsets_rounded pre post x0 y0 x1 y1
    (isFloat_finite _ hx0).1 (isFloat_finite _ hy0).1
    (by rw [hx0.1]; exact (isFloat_finite _ hdx).2.1)
    (by rw [hy0.1]; exact (isFloat_finite _ hdy).2.1)
    (by rw [hx0.1]; exact (isFloat_finite _ hdx).2.2)
    (by rw [hy0.1]; exact (isFloat_finite _ hdy).2.2)
  rw [hx0.1, hy0.1, toDouble_of_toFloat _ hdx.1, toDouble_of_toFloat _ hdy.1, hdx.1, hdy.1] at h
  exact h

/-- C6 witness: events `(400.5, 300.25)`, `(402, 299.75)`, `(401.25, 310)`,
`(0, 0)`; the third call has offsets `(-0.75, -10.25)`. -/
theorem mouse_offsets_between_events_witness :
    IsFloat 402 ∧ IsFloat (1199 / 4) ∧ IsFloat (1605 / 4 - 402) ∧ IsFloat (1199 / 4 - 310) ∧
    (feedCursor recordingCamera (AppState.initial [])
        ([(801 / 2, 1201 / 4)] ++ (402, 1199 / 4) :: (1605 / 4, 310) :: [(0, 0)])).camera[2]?
      = some (CameraCall.mouseMovement (1605 / 4 - 402) (1199 / 4 - 310)) :=
  ⟨by decide!, by decide!, by decide!, by decide!,
    (mouse_offsets_between_events [(801 / 2, 1201 / 4)] [(0, 0)] 402 (1199 / 4) (1605 / 4) 310
      (by decide!) (by decide!) (by decide!) (by decide!)).2⟩

/-- C6 counterexample: events `(400 + 2⁻²⁰, 300)` then `(401 + 2⁻²⁰, 300)`, both
`double` values.  The claim gives the second event the x offset `1`; the code
stored the first position as the `GLfloat` `400` and passes `1 + 2⁻²⁰`. -/
theorem mouse_offsets_between_events_counterexample :
    IsDouble (400 + 1 / 2 ^ 20) ∧ IsDouble (401 + 1 / 2 ^ 20) ∧
    (401 + 1 / 2 ^ 20 : ℚ) - (400 + 1 / 2 ^ 20) = 1 ∧
    (feedCursor recordingCamera (AppState.initial [])
        [(400 + 1 / 2 ^ 20, 300), (401 + 1 / 2 ^ 20, 300)]).camera[1]?
      = some (CameraCall.mouseMovement (1 + 1 / 2 ^ 20) 0) ∧
    (feedCursor recordingCamera (AppState.initial [])
        [(400 + 1 / 2 ^ 20, 300), (401 + 1 / 2 ^ 20, 300)]).camera[1]?
      ≠ some (CameraCall.mouseMovement 1 0) := by
  decide!

end ModelingLab
